import Mathlib

/-!
Verification of the quote-number allocation and quote CRUD logic of the
opiancore repository (storage layer in `server/storage.ts`, schema in
`shared/schema.ts`).  The storage file contains two variants of the same
class: a MySQL variant whose allocator uses the prefix `Q<year>-` and
strips the prefix before parsing, and a second variant whose allocator
uses the prefix `QT<year>` and parses only the last three characters.
Both are embedded below.  JavaScript string and number primitives
(`parseInt`, `padStart`, `slice`, `replace`, NaN propagation) are
modelled explicitly; the database is modelled as an in-memory list of
rows, the `UNIQUE` constraint on `quoteNumber` as a membership test on
insert, and the `LIKE 'p%' ORDER BY quoteNumber DESC LIMIT 1` read as
the lexicographically greatest matching row.
-/

/-- JavaScript `String.prototype.padStart` with a single pad character:
if the string already has at least `n` characters it is returned
unchanged, otherwise pad characters are prepended. -/
def padStart (s : String) (n : Nat) (c : Char) : String :=
  if n ≤ s.length then s else ⟨List.replicate (n - s.length) c ++ s.data⟩

/-- Value of one character as a digit in the given radix (JavaScript
`parseInt` accepts `0-9`, `a-z`, `A-Z` and rejects digits that are not
below the radix). -/
def digitValue (radix : Nat) (c : Char) : Option Nat :=
  let v : Option Nat :=
    if '0' ≤ c ∧ c ≤ '9' then some (c.toNat - 48)
    else if 'a' ≤ c ∧ c ≤ 'z' then some (c.toNat - 87)
    else if 'A' ≤ c ∧ c ≤ 'Z' then some (c.toNat - 55)
    else none
  match v with
  | some v => if v < radix then some v else none
  | none => none

/-- Longest leading run of digits of the given radix. -/
def takeDigits (radix : Nat) : List Char → List Nat
  | [] => []
  | c :: cs =>
    match digitValue radix c with
    | some v => v :: takeDigits radix cs
    | none => []

/-- Value of a digit sequence in the given radix. -/
def digitsToNat (radix : Nat) (ds : List Nat) : Nat :=
  ds.foldl (fun acc d => acc * radix + d) 0

/-- Whitespace skipped by JavaScript `parseInt`. -/
def isSpaceJS (c : Char) : Bool :=
  c = ' ' || c = '\t' || c = '\n' || c = '\r'

/-- JavaScript `parseInt(s)` with no radix argument: skip leading
whitespace, read an optional sign, detect a `0x`/`0X` hex marker, then
take the longest run of digits.  `none` models the float `NaN`, returned
when no digit is read. -/
def parseIntJS (s : String) : Option Int :=
  let cs := s.data.dropWhile isSpaceJS
  let sign : Int :=
    match cs with
    | '-' :: _ => -1
    | _ => 1
  let cs :=
    match cs with
    | '-' :: r => r
    | '+' :: r => r
    | r => r
  let rc : Nat × List Char :=
    match cs with
    | '0' :: 'x' :: r => (16, r)
    | '0' :: 'X' :: r => (16, r)
    | r => (10, r)
  let ds := takeDigits rc.1 rc.2
  if ds.isEmpty then none
  else some (sign * (digitsToNat rc.1 ds : Int))

/-- Adding `1` to a JavaScript number: `NaN + 1` is `NaN`. -/
def jsAdd1 : Option Int → Option Int
  | none => none
  | some n => some (n + 1)

/-- JavaScript `Number.prototype.toString` on an integer-valued number;
`NaN` prints as `"NaN"`. -/
def numToString : Option Int → String
  | none => "NaN"
  | some n => toString n

/-- The allocator's increment-and-format step,
`(parseInt(s) + 1).toString().padStart(3, '0')`. -/
def incPad (s : String) : String :=
  padStart (numToString (jsAdd1 (parseIntJS s))) 3 '0'

/-- Replace the first occurrence of `pat` in a character list by nothing
(JavaScript `String.prototype.replace` with a string pattern and empty
replacement). -/
def replaceFirstAux (pat : List Char) : List Char → List Char
  | [] => []
  | c :: cs =>
    if List.isPrefixOf pat (c :: cs) then List.drop pat.length (c :: cs)
    else c :: replaceFirstAux pat cs

/-- JavaScript `s.replace(pat, '')`. -/
def jsReplaceFirst (s pat : String) : String :=
  ⟨replaceFirstAux pat.data s.data⟩

/-- JavaScript `s.slice(-3)`: the last three characters (the whole
string when it is shorter). -/
def jsSliceLast3 (s : String) : String :=
  ⟨s.data.drop (s.data.length - 3)⟩

/-- Lexicographic comparison of character lists by code point, the
ordering of the persistence read contract (`ORDER BY quoteNumber DESC`). -/
def charListLt : List Char → List Char → Bool
  | _, [] => false
  | [], _ :: _ => true
  | a :: as, b :: bs =>
    if a.toNat < b.toNat then true
    else if b.toNat < a.toNat then false
    else charListLt as bs

/-- Lexicographic string comparison. -/
def strLtB (a b : String) : Bool := charListLt a.data b.data

/-- SQL `LIKE 'pat%'` for a pattern without wildcard characters: the
string starts with `pat`. -/
def likeStartsWith (pat s : String) : Bool := List.isPrefixOf pat.data s.data

/-- A row of the `quotes` table (`shared/schema.ts`).  Timestamps are
abstracted to naturals, the `items` JSON blob and the decimal columns to
strings, as stored. -/
structure Quote where
  id : String
  clientId : String
  quoteNumber : String
  title : String
  description : Option String
  items : String
  subtotal : String
  tax : String
  total : String
  status : String
  validUntil : Option Nat
  createdBy : String
  createdAt : Nat
  updatedAt : Nat
deriving Repr, DecidableEq

/-- The type `InsertQuote = z.infer<typeof insertQuoteSchema>`: the quote columns
minus `id`, `quoteNumber`, `createdAt` and `updatedAt`, which
`insertQuoteSchema.omit` removes. -/
structure InsertQuote where
  clientId : String
  title : String
  description : Option String
  items : String
  subtotal : String
  tax : String
  total : String
  status : String
  validUntil : Option Nat
  createdBy : String
deriving Repr, DecidableEq

/-- The type `Partial<InsertQuote>`: every insertable field optional.  In
particular there is no `quoteNumber` field, mirroring
`insertQuoteSchema.omit({ quoteNumber: true, ... })`. -/
structure QuotePatch where
  clientId : Option String := none
  title : Option String := none
  description : Option (Option String) := none
  items : Option String := none
  subtotal : Option String := none
  tax : Option String := none
  total : Option String := none
  status : Option String := none
  validUntil : Option (Option Nat) := none
  createdBy : Option String := none
deriving Repr, DecidableEq

/-- The errors a quote creation can surface: the persistence read inside
the allocator failing, or the insert being rejected by the `UNIQUE`
constraint on `quoteNumber`. -/
inductive CreateError
  | readFailure
  | duplicateQuoteNumber
deriving Repr, DecidableEq

/-- The year prefix of the first (MySQL) allocator variant,
`` `Q${year}-` ``. -/
def pfxFor (year : Nat) : String := "Q" ++ toString year ++ "-"

/-- The year prefix of the second allocator variant, `` `QT${year}` ``. -/
def qtPfxFor (year : Nat) : String := "QT" ++ toString year

/-- Rows whose `quoteNumber` matches `LIKE 'pat%'`. -/
def matchingQuotes (pat : String) (store : List Quote) : List Quote :=
  store.filter (fun q => likeStartsWith pat q.quoteNumber)

/-- The read `ORDER BY quoteNumber DESC LIMIT 1`: the row with the
lexicographically greatest `quoteNumber`, or `none` on an empty row
set. -/
def maxByQuoteNumber : List Quote → Option Quote
  | [] => none
  | q :: qs =>
    match maxByQuoteNumber qs with
    | none => some q
    | some m => if strLtB q.quoteNumber m.quoteNumber then some m else some q

/-- Embedding of `DatabaseStorage.getNextQuoteNumber` (MySQL variant): read the
lexicographically greatest quote number starting with `Q<year>-`; if
none exists return `prefix + "001"`, otherwise strip the prefix, apply
`parseInt`, add one and zero-pad to at least three digits. -/
def getNextQuoteNumber (year : Nat) (store : List Quote) : String :=
  let pfx := pfxFor year
  match maxByQuoteNumber (matchingQuotes pfx store) with
  | none => pfx ++ "001"
  | some lastQuote =>
    let lastNumber := parseIntJS (jsReplaceFirst lastQuote.quoteNumber pfx)
    let nextNumber := padStart (numToString (jsAdd1 lastNumber)) 3 '0'
    pfx ++ nextNumber

/-- Embedding of `DatabaseStorage.getNextQuoteNumber` (second variant): prefix
`QT<year>`, and the numeric suffix of the last quote is read with
`slice(-3)`, i.e. from the last three characters only. -/
def getNextQuoteNumberQT (year : Nat) (store : List Quote) : String :=
  let pfx := qtPfxFor year
  match maxByQuoteNumber (matchingQuotes pfx store) with
  | none => pfx ++ "001"
  | some lastQuote =>
    let lastNumber := parseIntJS (jsSliceLast3 lastQuote.quoteNumber)
    pfx ++ padStart (numToString (jsAdd1 lastNumber)) 3 '0'

/-- Does some stored quote already carry this quote number? -/
def hasQuoteNumber (store : List Quote) (qn : String) : Bool :=
  store.any (fun q => q.quoteNumber == qn)

/-- Insert into the `quotes` table: the `UNIQUE` constraint on
`quoteNumber` rejects the row distinguishably when the number already
exists. -/
def insertQuote (r : Quote) (store : List Quote) : Except CreateError (List Quote) :=
  if hasQuoteNumber store r.quoteNumber then .error .duplicateQuoteNumber
  else .ok (store ++ [r])

/-- The row built by `createQuote`: the caller's fields plus the freshly
allocated number and database-defaulted id and timestamps. -/
def buildQuote (newId : String) (now : Nat) (qn : String) (q : InsertQuote) : Quote :=
  { id := newId, clientId := q.clientId, quoteNumber := qn, title := q.title,
    description := q.description, items := q.items, subtotal := q.subtotal,
    tax := q.tax, total := q.total, status := q.status,
    validUntil := q.validUntil, createdBy := q.createdBy,
    createdAt := now, updatedAt := now }

/-- The allocator's persistence read, which may fail; on failure the
error propagates to the caller of `getNextQuoteNumber`. -/
def getNextQuoteNumberE (readFails : Bool) (year : Nat) (store : List Quote) :
    Except CreateError String :=
  if readFails then .error .readFailure else .ok (getNextQuoteNumber year store)

/-- Embedding of `DatabaseStorage.createQuote` (MySQL variant): allocate a number via
`getNextQuoteNumber`, then insert once; any error is surfaced to the
caller unchanged, with the store left as it was.  `year` is the wall
clock year, `newId`/`now` the database-generated id and timestamp. -/
def createQuote (year : Nat) (readFails : Bool) (newId : String) (now : Nat)
    (q : InsertQuote) (store : List Quote) : Except CreateError Quote × List Quote :=
  match getNextQuoteNumberE readFails year store with
  | .error e => (.error e, store)
  | .ok qn =>
    match insertQuote (buildQuote newId now qn q) store with
    | .error e => (.error e, store)
    | .ok store2 => (.ok (buildQuote newId now qn q), store2)

/-- One `createQuote` call of a single-threaded sequence, with its wall
clock year, the fate of its persistence read, and its database-generated
id and timestamp. -/
structure CreateCall where
  year : Nat
  readFails : Bool
  newId : String
  now : Nat
  insq : InsertQuote
deriving Repr, DecidableEq

/-- Run one call against the store. -/
def stepCreate (c : CreateCall) (store : List Quote) :
    Except CreateError Quote × List Quote :=
  createQuote c.year c.readFails c.newId c.now c.insq store

/-- The store after a single-threaded sequence of `createQuote` calls. -/
def runCreates (calls : List CreateCall) (store : List Quote) : List Quote :=
  calls.foldl (fun s c => (stepCreate c s).2) store

/-- The quotes successfully created by a single-threaded sequence of
`createQuote` calls, in creation order; failed calls create nothing. -/
def createdTrace (calls : List CreateCall) (store : List Quote) : List Quote :=
  match calls with
  | [] => []
  | c :: rest =>
    match stepCreate c store with
    | (.ok r, s2) => r :: createdTrace rest s2
    | (.error _, s2) => createdTrace rest s2

/-- Embedding of the update-set step of `updateQuote`: fields
present in the patch overwrite, `updatedAt` is always refreshed. -/
def applyPatch (q : Quote) (p : QuotePatch) (now : Nat) : Quote :=
  { q with
    clientId := p.clientId.getD q.clientId,
    title := p.title.getD q.title,
    description := p.description.getD q.description,
    items := p.items.getD q.items,
    subtotal := p.subtotal.getD q.subtotal,
    tax := p.tax.getD q.tax,
    total := p.total.getD q.total,
    status := p.status.getD q.status,
    validUntil := p.validUntil.getD q.validUntil,
    createdBy := p.createdBy.getD q.createdBy,
    updatedAt := now }

/-- Embedding of `DatabaseStorage.updateQuote`: update the row with the given id in
place, then re-select it.  No quote number is allocated. -/
def updateQuote (id : String) (p : QuotePatch) (now : Nat) (store : List Quote) :
    Option Quote × List Quote :=
  let store2 := store.map (fun q => if q.id == id then applyPatch q p now else q)
  (store2.find? (fun q => q.id == id), store2)

/-- The zero-padded suffix the allocator produces for the value `v`:
`v.toString().padStart(3, '0')`. -/
def sfxPad (v : Nat) : String := padStart (toString v) 3 '0'

/-- A well-formed quote number of the MySQL variant: year prefix plus
zero-padded suffix. -/
def qnum (y v : Nat) : String := pfxFor y ++ sfxPad v

/-- No two rows of the store share a `quoteNumber` (the `UNIQUE`
constraint / the spec's uniqueness invariant). -/
def QuoteNumbersDistinct (store : List Quote) : Prop :=
  store.Pairwise (fun a b => a.quoteNumber ≠ b.quoteNumber)

/-- Is the string a nonempty run of decimal digits? -/
def isDigitString (s : String) : Bool :=
  !s.data.isEmpty && s.data.all (fun c => ('0' ≤ c) && (c ≤ '9'))

/-- A row of the `clients` table, restricted to the columns the
dashboard reads. -/
structure ClientRec where
  id : String
  createdBy : String
deriving Repr, DecidableEq

/-- A row of the `meetings` table, restricted to the columns the
dashboard reads. -/
structure MeetingRec where
  id : String
  scheduledAt : Nat
  status : String
  createdBy : String
deriving Repr, DecidableEq

/-- The tables `getDashboardStats` queries. -/
structure Database where
  clients : List ClientRec
  quotes : List Quote
  meetings : List MeetingRec
deriving Repr, DecidableEq

/-- The result of `getDashboardStats`.  `monthlyRevenue` models the
JavaScript number produced by `parseFloat`; `none` stands for `NaN`. -/
structure DashboardStats where
  totalClients : Nat
  activeQuotes : Nat
  upcomingMeetings : Nat
  monthlyRevenue : Option Rat
deriving Repr, DecidableEq

/-- Which of the four persistence queries inside `getDashboardStats`
fail. -/
structure DbFailures where
  clientsQuery : Bool
  quotesQuery : Bool
  meetingsQuery : Bool
  revenueQuery : Bool
deriving Repr, DecidableEq

/-- A persistence query that either fails or returns its rows. -/
def runQuery (fails : Bool) (rows : α) : Except Unit α :=
  if fails then .error () else .ok rows

/-- Parse a decimal numeral string (optional sign, integer digits,
optional fractional digits) to an exact rational; `none` models `NaN`.
This is JavaScript `parseFloat` restricted to the decimal strings a SQL
`DECIMAL` column produces, where it is exact up to float rounding, which
is not modelled. -/
def parseDecimalRat (s : String) : Option Rat :=
  let cs := s.data
  let sign : Rat :=
    match cs with
    | '-' :: _ => -1
    | _ => 1
  let cs :=
    match cs with
    | '-' :: r => r
    | '+' :: r => r
    | r => r
  let intDs := takeDigits 10 cs
  let rest := cs.drop intDs.length
  match rest with
  | '.' :: frac =>
    let fracDs := takeDigits 10 frac
    if intDs.isEmpty && fracDs.isEmpty then none
    else some (sign * ((digitsToNat 10 intDs : Rat) +
      (digitsToNat 10 fracDs : Rat) / ((10 : Rat) ^ fracDs.length)))
  | _ =>
    if intDs.isEmpty then none
    else some (sign * (digitsToNat 10 intDs : Rat))

/-- SQL `SUM` over the `total` column: `NULL` (here `none`) on an empty
row set, otherwise the exact decimal sum.  Strings that are not decimal
numerals cannot occur in a `DECIMAL` column and contribute zero. -/
def sumTotals (rows : List Quote) : Option Rat :=
  match rows with
  | [] => none
  | _ => some (rows.foldl (fun acc q => acc + ((parseDecimalRat q.total).getD 0)) 0)

/-- Embedding of `DatabaseStorage.getDashboardStats` (MySQL variant): four
role-scoped aggregate queries wrapped in a single `try`; any error makes
the `catch` return all-zero stats instead of propagating. -/
def getDashboardStats (fl : DbFailures) (userId : String) (isAdmin : Bool)
    (now startOfMonth : Nat) (db : Database) : DashboardStats :=
  let run : Except Unit DashboardStats := do
    let clientCount ← runQuery fl.clientsQuery
      (if isAdmin then db.clients.length
       else (db.clients.filter (fun c => c.createdBy == userId)).length)
    let quoteCount ← runQuery fl.quotesQuery
      (if isAdmin then (db.quotes.filter (fun q => q.status == "sent")).length
       else (db.quotes.filter
         (fun q => q.status == "sent" && q.createdBy == userId)).length)
    let meetingCount ← runQuery fl.meetingsQuery
      (if isAdmin then (db.meetings.filter
         (fun m => now ≤ m.scheduledAt && m.status == "scheduled")).length
       else (db.meetings.filter
         (fun m => now ≤ m.scheduledAt && m.status == "scheduled" &&
           m.createdBy == userId)).length)
    let revenueTotal ← runQuery fl.revenueQuery
      (sumTotals
        (if isAdmin then db.quotes.filter
           (fun q => q.status == "accepted" && startOfMonth ≤ q.updatedAt)
         else db.quotes.filter
           (fun q => q.status == "accepted" && startOfMonth ≤ q.updatedAt &&
             q.createdBy == userId)))
    pure { totalClients := clientCount, activeQuotes := quoteCount,
           upcomingMeetings := meetingCount,
           monthlyRevenue :=
             match revenueTotal with
             | none => parseDecimalRat "0"
             | some r => some r }
  match run with
  | .ok s => s
  | .error _ =>
    { totalClients := 0, activeQuotes := 0, upcomingMeetings := 0,
      monthlyRevenue := some 0 }

theorem charListLt_irrefl : ∀ l : List Char, charListLt l l = false := by
  intro l
  induction l with
  | nil => rfl
  | cons c cs ih => simp [charListLt, ih]

theorem charListLt_asymm :
    ∀ a b : List Char, charListLt a b = true → charListLt b a = false := by
  intro a
  induction a with
  | nil =>
    intro b h
    cases b with
    | nil => simp [charListLt] at h
    | cons y ys => simp [charListLt]
  | cons x xs ih =>
    intro b h
    cases b with
    | nil => simp [charListLt] at h
    | cons y ys =>
      simp only [charListLt] at h ⊢
      by_cases h1 : x.toNat < y.toNat
      · simp [show ¬ y.toNat < x.toNat by omega, h1]
      · by_cases h2 : y.toNat < x.toNat
        · simp [h1, h2] at h
        · simp [h1, h2] at h ⊢
          exact ih ys h

theorem charListLt_conn :
    ∀ a b : List Char, charListLt a b = false → charListLt b a = false → a = b := by
  intro a
  induction a with
  | nil =>
    intro b h1 h2
    cases b with
    | nil => rfl
    | cons y ys => simp [charListLt] at h1
  | cons x xs ih =>
    intro b h1 h2
    cases b with
    | nil => simp [charListLt] at h2
    | cons y ys =>
      simp only [charListLt] at h1 h2
      by_cases hxy : x.toNat < y.toNat
      · simp [hxy] at h1
      · by_cases hyx : y.toNat < x.toNat
        · simp [hyx] at h2
        · have hx : x = y :=
            Char.eq_of_val_eq (UInt32.ext (show x.toNat = y.toNat by omega))
          simp [hxy, hyx] at h1 h2
          rw [hx, ih ys h1 h2]

theorem charListLt_trans :
    ∀ a b c : List Char, charListLt a b = true → charListLt b c = true →
      charListLt a c = true := by
  intro a
  induction a with
  | nil =>
    intro b c hab hbc
    cases b with
    | nil => simp [charListLt] at hab
    | cons y ys =>
      cases c with
      | nil => simp [charListLt] at hbc
      | cons z zs => simp [charListLt]
  | cons x xs ih =>
    intro b c hab hbc
    cases b with
    | nil => simp [charListLt] at hab
    | cons y ys =>
      cases c with
      | nil => simp [charListLt] at hbc
      | cons z zs =>
        simp only [charListLt] at hab hbc ⊢
        by_cases hxy : x.toNat < y.toNat
        · by_cases hyz : y.toNat < z.toNat
          · simp [show x.toNat < z.toNat by omega]
          · by_cases hzy : z.toNat < y.toNat
            · simp [hyz, hzy] at hbc
            · simp [show x.toNat < z.toNat by omega]
        · by_cases hyx : y.toNat < x.toNat
          · simp [hxy, hyx] at hab
          · have hxe : x.toNat = y.toNat := by omega
            by_cases hyz : y.toNat < z.toNat
            · simp [show x.toNat < z.toNat by omega]
            · by_cases hzy : z.toNat < y.toNat
              · simp [hyz, hzy] at hbc
              · simp [hxy, hyx] at hab
                simp [hyz, hzy] at hbc
                simp [show ¬ x.toNat < z.toNat by omega,
                  show ¬ z.toNat < x.toNat by omega]
                exact ih ys zs hab hbc

theorem charListLt_append :
    ∀ p a b : List Char, charListLt (p ++ a) (p ++ b) = charListLt a b := by
  intro p
  induction p with
  | nil => intro a b; rfl
  | cons c cs ih =>
    intro a b
    show charListLt (c :: (cs ++ a)) (c :: (cs ++ b)) = charListLt a b
    simp only [charListLt, Nat.lt_irrefl, if_false]
    exact ih a b

theorem str_data_append (a b : String) : (a ++ b).data = a.data ++ b.data := rfl

theorem strLtB_irrefl (s : String) : strLtB s s = false := charListLt_irrefl s.data

theorem strLtB_asymm {a b : String} (h : strLtB a b = true) : strLtB b a = false :=
  charListLt_asymm a.data b.data h

theorem strLtB_trans {a b c : String} (hab : strLtB a b = true)
    (hbc : strLtB b c = true) : strLtB a c = true :=
  charListLt_trans a.data b.data c.data hab hbc

theorem strLtB_conn {a b : String} (h1 : strLtB a b = false)
    (h2 : strLtB b a = false) : a = b := by
  have := charListLt_conn a.data b.data h1 h2
  cases a; cases b; exact congrArg String.mk this

theorem strLtB_append (p a b : String) :
    strLtB (p ++ a) (p ++ b) = strLtB a b := by
  show charListLt (p ++ a).data (p ++ b).data = charListLt a.data b.data
  rw [str_data_append, str_data_append, charListLt_append]

theorem strLtB_ne {a b : String} (h : strLtB a b = true) : a ≠ b := by
  intro he
  rw [he, strLtB_irrefl] at h
  exact Bool.false_ne_true h

theorem isPrefixOf_append_self :
    ∀ p r : List Char, List.isPrefixOf p (p ++ r) = true := by
  intro p r
  induction p with
  | nil => simp [List.isPrefixOf]
  | cons c cs ih => simp [List.isPrefixOf, ih]

theorem likeStartsWith_append (p s : String) :
    likeStartsWith p (p ++ s) = true := by
  show List.isPrefixOf p.data (p ++ s).data = true
  rw [str_data_append]
  exact isPrefixOf_append_self p.data s.data

theorem string_append_left_cancel {p a b : String} (h : p ++ a = p ++ b) :
    a = b := by
  have hd : p.data ++ a.data = p.data ++ b.data := by
    rw [← str_data_append, ← str_data_append, h]
  have := List.append_cancel_left hd
  cases a; cases b; exact congrArg String.mk this

theorem replaceFirstAux_self (pd r : List Char) :
    replaceFirstAux pd (pd ++ r) = r := by
  cases pd with
  | nil =>
    cases r with
    | nil => rfl
    | cons c cs => simp [replaceFirstAux, List.isPrefixOf]
  | cons c cs =>
    show replaceFirstAux (c :: cs) (c :: (cs ++ r)) = r
    rw [replaceFirstAux]
    rw [show List.isPrefixOf (c :: cs) (c :: (cs ++ r)) = true from
      isPrefixOf_append_self (c :: cs) r]
    simp

theorem jsReplaceFirst_append (p s : String) :
    jsReplaceFirst (p ++ s) p = s := by
  show (⟨replaceFirstAux p.data (p ++ s).data⟩ : String) = s
  rw [str_data_append, replaceFirstAux_self]

theorem jsSliceLast3_append (a b : String) (hb : b.data.length = 3) :
    jsSliceLast3 (a ++ b) = b := by
  show (⟨(a ++ b).data.drop ((a ++ b).data.length - 3)⟩ : String) = b
  rw [str_data_append, List.length_append, hb]
  rw [show a.data.length + 3 - 3 = a.data.length by omega]
  rw [List.drop_left]

theorem maxByQuoteNumber_eq_none {l : List Quote} :
    maxByQuoteNumber l = none ↔ l = [] := by
  cases l with
  | nil => simp [maxByQuoteNumber]
  | cons q qs =>
    simp only [maxByQuoteNumber]
    constructor
    · intro h
      cases hm : maxByQuoteNumber qs with
      | none => rw [hm] at h; simp at h
      | some m => rw [hm] at h; by_cases hc : strLtB q.quoteNumber m.quoteNumber <;>
          simp [hc] at h
    · intro h; cases h

theorem maxByQuoteNumber_mem :
    ∀ {l : List Quote} {m : Quote}, maxByQuoteNumber l = some m → m ∈ l := by
  intro l
  induction l with
  | nil => intro m h; cases h
  | cons q qs ih =>
    intro m h
    cases hm : maxByQuoteNumber qs with
    | none =>
      simp only [maxByQuoteNumber, hm, Option.some.injEq] at h
      subst h
      exact List.mem_cons_self q qs
    | some m2 =>
      simp only [maxByQuoteNumber, hm] at h
      by_cases hc : strLtB q.quoteNumber m2.quoteNumber = true
      · rw [if_pos hc, Option.some.injEq] at h
        subst h
        exact List.mem_cons_of_mem q (ih hm)
      · rw [if_neg hc, Option.some.injEq] at h
        subst h
        exact List.mem_cons_self q qs

theorem maxByQuoteNumber_is_max :
    ∀ {l : List Quote} {m : Quote}, maxByQuoteNumber l = some m →
      ∀ q ∈ l, strLtB m.quoteNumber q.quoteNumber = false := by
  intro l
  induction l with
  | nil => intro m h; cases h
  | cons x xs ih =>
    intro m h q hq
    cases hm : maxByQuoteNumber xs with
    | none =>
      simp only [maxByQuoteNumber, hm, Option.some.injEq] at h
      subst h
      have hxs : xs = [] := maxByQuoteNumber_eq_none.mp hm
      subst hxs
      rcases List.mem_singleton.mp hq with rfl
      exact strLtB_irrefl _
    | some m2 =>
      simp only [maxByQuoteNumber, hm] at h
      by_cases hc : strLtB x.quoteNumber m2.quoteNumber = true
      · rw [if_pos hc, Option.some.injEq] at h
        subst h
        rcases List.mem_cons.mp hq with rfl | hq2
        · exact strLtB_asymm hc
        · exact ih hm q hq2
      · rw [if_neg hc, Option.some.injEq] at h
        subst h
        have hc2 : strLtB x.quoteNumber m2.quoteNumber = false :=
          Bool.eq_false_iff.mpr hc
        rcases List.mem_cons.mp hq with rfl | hq2
        · exact strLtB_irrefl _
        · have hq3 := ih hm q hq2
          by_cases hm2x : strLtB m2.quoteNumber x.quoteNumber = true
          · apply Bool.eq_false_iff.mpr
            intro hxq
            have := strLtB_trans hm2x hxq
            rw [this] at hq3
            cases hq3
          · have heq : x.quoteNumber = m2.quoteNumber :=
              strLtB_conn hc2 (Bool.eq_false_iff.mpr hm2x)
            rw [heq]
            exact hq3

theorem maxByQuoteNumber_spec :
    ∀ {l : List Quote} {m : Quote}, m ∈ l →
      (∀ q ∈ l, q.quoteNumber = m.quoteNumber ∨
        strLtB q.quoteNumber m.quoteNumber = true) →
      ∃ m2, maxByQuoteNumber l = some m2 ∧ m2.quoteNumber = m.quoteNumber := by
  intro l
  induction l with
  | nil => intro m hm; cases hm
  | cons x xs ih =>
    intro m hm hall
    cases hxs : maxByQuoteNumber xs with
    | none =>
      have : xs = [] := maxByQuoteNumber_eq_none.mp hxs
      subst this
      rcases List.mem_singleton.mp hm with rfl
      exact ⟨m, by simp [maxByQuoteNumber], rfl⟩
    | some m2 =>
      have hm2mem : m2 ∈ xs := maxByQuoteNumber_mem hxs
      have hm2 := hall m2 (List.mem_cons_of_mem x hm2mem)
      have hx := hall x (List.mem_cons_self x xs)
      by_cases hc : strLtB x.quoteNumber m2.quoteNumber = true
      · -- the maximum of the tail wins
        refine ⟨m2, by simp [maxByQuoteNumber, hxs, hc], ?_⟩
        rcases hm2 with he | hlt
        · exact he
        · exfalso
          rcases List.mem_cons.mp hm with rfl | hmxs
          · have := strLtB_trans hc hlt
            simp [strLtB_irrefl] at this
          · have hmax := maxByQuoteNumber_is_max hxs m hmxs
            rw [hmax] at hlt
            cases hlt
      · -- the head wins
        have hc2 : strLtB x.quoteNumber m2.quoteNumber = false :=
          Bool.eq_false_iff.mpr hc
        refine ⟨x, by simp [maxByQuoteNumber, hxs, hc2], ?_⟩
        rcases hx with he | hlt
        · exact he
        · exfalso
          rcases List.mem_cons.mp hm with rfl | hmxs
          · simp [strLtB_irrefl] at hlt
          · have hmax := maxByQuoteNumber_is_max hxs m hmxs
            by_cases hmm2 : strLtB m.quoteNumber m2.quoteNumber = true
            · have := strLtB_trans hlt hmm2
              rw [this] at hc2
              cases hc2
            · have heq : m2.quoteNumber = m.quoteNumber :=
                strLtB_conn hmax (Bool.eq_false_iff.mpr hmm2)
              rw [← heq] at hlt
              rw [hlt] at hc2
              cases hc2

set_option maxRecDepth 10000 in
/-- Parsing a zero-padded suffix recovers its value (checked for every
value the other lemmas need). -/
theorem sfxPad_parse : ∀ n, n < 1002 → parseIntJS (sfxPad n) = some (n : Int) := by
  decide

set_option maxRecDepth 10000 in
/-- The allocator's parse-increment-format step sends the suffix for `n`
to the suffix for `n + 1`. -/
theorem sfxPad_inc : ∀ n, n < 1001 → incPad (sfxPad n) = sfxPad (n + 1) := by
  decide

set_option maxRecDepth 10000 in
/-- Within the three-digit range, consecutive suffixes are
lexicographically increasing. -/
theorem sfxPad_chain : ∀ n, n < 999 → n ≠ 0 →
    strLtB (sfxPad n) (sfxPad (n + 1)) = true := by
  decide

set_option maxRecDepth 10000 in
/-- Three-digit suffixes have length three. -/
theorem sfxPad_len3 : ∀ n, n < 1000 → (sfxPad n).length = 3 := by
  decide

theorem sfxPad_len4 : (sfxPad 1000).length = 4 := by decide

/-- The lexicographic anomaly at the pad-width boundary: the suffix
`"1000"` sorts below `"999"`. -/
theorem sfxPad_lt_1000_999 : strLtB (sfxPad 1000) (sfxPad 999) = true := by decide

theorem sfxPad_zero_chain : strLtB (sfxPad 0) (sfxPad 1) = true := by decide

theorem sfxPad_lt {v w : Nat} (hvw : v < w) (hw : w ≤ 999) :
    strLtB (sfxPad v) (sfxPad w) = true := by
  induction w with
  | zero => omega
  | succ u ihu =>
    rcases Nat.lt_succ_iff_lt_or_eq.mp hvw with h | h
    · have h1 : strLtB (sfxPad v) (sfxPad u) = true := ihu h (by omega)
      have h2 : strLtB (sfxPad u) (sfxPad (u + 1)) = true := by
        rcases Nat.eq_zero_or_pos u with rfl | hu
        · exact sfxPad_zero_chain
        · exact sfxPad_chain u (by omega) (by omega)
      exact strLtB_trans h1 h2
    · subst h
      rcases Nat.eq_zero_or_pos v with rfl | hv
      · exact sfxPad_zero_chain
      · exact sfxPad_chain v (by omega) (by omega)

theorem sfxPad_one : sfxPad 1 = "001" := by decide

theorem qnum_lt {v w : Nat} (y : Nat) (hvw : v < w) (hw : w ≤ 999) :
    strLtB (qnum y v) (qnum y w) = true := by
  rw [qnum, qnum, strLtB_append]
  exact sfxPad_lt hvw hw

theorem qnum_lt_1000_999 (y : Nat) :
    strLtB (qnum y 1000) (qnum y 999) = true := by
  rw [qnum, qnum, strLtB_append]
  exact sfxPad_lt_1000_999

theorem sfxPad_ne {v w : Nat} (hv : v ≤ 1000) (hw : w ≤ 1000) (hne : v ≠ w) :
    sfxPad v ≠ sfxPad w := by
  rcases Nat.lt_or_ge v 1000 with hv9 | hv9
  · rcases Nat.lt_or_ge w 1000 with hw9 | hw9
    · rcases Nat.lt_or_ge v w with h | h
      · exact strLtB_ne (sfxPad_lt h (by omega))
      · have : w < v := by omega
        exact fun he => strLtB_ne (sfxPad_lt this (by omega)) he.symm
    · have hw1000 : w = 1000 := by omega
      subst hw1000
      intro he
      have h3 := sfxPad_len3 v hv9
      rw [he, sfxPad_len4] at h3
      cases h3
  · have hv1000 : v = 1000 := by omega
    subst hv1000
    have hw9 : w < 1000 := by omega
    intro he
    have h3 := sfxPad_len3 w hw9
    rw [← he, sfxPad_len4] at h3
    cases h3

theorem qnum_ne {v w : Nat} (y : Nat) (hv : v ≤ 1000) (hw : w ≤ 1000)
    (hne : v ≠ w) : qnum y v ≠ qnum y w := by
  intro he
  exact sfxPad_ne hv hw hne (string_append_left_cancel he)

theorem likeStartsWith_qnum (y v : Nat) :
    likeStartsWith (pfxFor y) (qnum y v) = true :=
  likeStartsWith_append (pfxFor y) (sfxPad v)

theorem strip_qnum (y v : Nat) :
    jsReplaceFirst (qnum y v) (pfxFor y) = sfxPad v :=
  jsReplaceFirst_append (pfxFor y) (sfxPad v)

theorem getNext_none {y : Nat} {store : List Quote}
    (h : maxByQuoteNumber (matchingQuotes (pfxFor y) store) = none) :
    getNextQuoteNumber y store = pfxFor y ++ "001" := by
  simp [getNextQuoteNumber, h]

theorem getNext_some {y : Nat} {store : List Quote} {m : Quote}
    (h : maxByQuoteNumber (matchingQuotes (pfxFor y) store) = some m) :
    getNextQuoteNumber y store =
      pfxFor y ++ incPad (jsReplaceFirst m.quoteNumber (pfxFor y)) := by
  simp [getNextQuoteNumber, h, incPad]

theorem getNextQT_none {y : Nat} {store : List Quote}
    (h : maxByQuoteNumber (matchingQuotes (qtPfxFor y) store) = none) :
    getNextQuoteNumberQT y store = qtPfxFor y ++ "001" := by
  simp [getNextQuoteNumberQT, h]

theorem getNextQT_some {y : Nat} {store : List Quote} {m : Quote}
    (h : maxByQuoteNumber (matchingQuotes (qtPfxFor y) store) = some m) :
    getNextQuoteNumberQT y store =
      qtPfxFor y ++ incPad (jsSliceLast3 m.quoteNumber) := by
  simp [getNextQuoteNumberQT, h, incPad]

/-- Unpack the store-content invariant: every row's number is a
well-formed number with suffix between 1 and `n`. -/
theorem inv_mem {y n : Nat} {store : List Quote}
    (hmap : store.map (fun q => q.quoteNumber) = (List.range' 1 n).map (qnum y)) :
    ∀ q ∈ store, ∃ v, 1 ≤ v ∧ v ≤ n ∧ q.quoteNumber = qnum y v := by
  intro q hq
  have h1 : q.quoteNumber ∈ store.map (fun q => q.quoteNumber) :=
    List.mem_map_of_mem _ hq
  rw [hmap] at h1
  rcases List.mem_map.mp h1 with ⟨v, hv, he⟩
  rcases List.mem_range'_1.mp hv with ⟨hv1, hv2⟩
  exact ⟨v, hv1, by omega, he.symm⟩

/-- On an invariant store, every row matches the year prefix, so the
`LIKE` filter is the identity. -/
theorem inv_filter {y n : Nat} {store : List Quote}
    (hmap : store.map (fun q => q.quoteNumber) = (List.range' 1 n).map (qnum y)) :
    matchingQuotes (pfxFor y) store = store := by
  apply List.filter_eq_self.mpr
  intro q hq
  rcases inv_mem hmap q hq with ⟨v, _, _, he⟩
  rw [he]
  exact likeStartsWith_qnum y v

/-- What `getNextQuoteNumber` returns on a store holding exactly the
numbers `1..n` of the current year: the successor of the
lexicographically greatest suffix, which is `min n 999` because
`"1000"` sorts below `"999"`. -/
theorem getNext_of_inv (y n : Nat) (store : List Quote)
    (hmap : store.map (fun q => q.quoteNumber) = (List.range' 1 n).map (qnum y))
    (hn : n ≤ 1000) :
    getNextQuoteNumber y store = qnum y (min n 999 + 1) := by
  rcases Nat.eq_zero_or_pos n with rfl | hpos
  · have hnil : store = [] := by
      have := hmap
      simp at this
      exact this
    subst hnil
    rw [getNext_none (by simp [matchingQuotes, maxByQuoteNumber])]
    rw [show min 0 999 + 1 = 1 by omega, qnum, sfxPad_one]
  · set vm := min n 999 with hvm
    have hvm1 : 1 ≤ vm := by omega
    have hvmn : vm ≤ n := by omega
    have hvm999 : vm ≤ 999 := by omega
    have hmemmap : qnum y vm ∈ store.map (fun q => q.quoteNumber) := by
      rw [hmap]
      exact List.mem_map_of_mem _ (List.mem_range'_1.mpr ⟨hvm1, by omega⟩)
    rcases List.mem_map.mp hmemmap with ⟨m, hmmem, hmqn⟩
    have hall : ∀ q ∈ store, q.quoteNumber = m.quoteNumber ∨
        strLtB q.quoteNumber m.quoteNumber = true := by
      intro q hq
      rcases inv_mem hmap q hq with ⟨v, hv1, hv2, he⟩
      rw [he, hmqn]
      rcases Nat.lt_trichotomy v vm with h | h | h
      · exact Or.inr (qnum_lt y h hvm999)
      · exact Or.inl (by rw [h])
      · -- only possible when n = 1000, vm = 999 and v = 1000
        have hv1000 : v = 1000 := by omega
        have hvm999e : vm = 999 := by omega
        subst hv1000
        rw [hvm999e]
        exact Or.inr (qnum_lt_1000_999 y)
    rcases maxByQuoteNumber_spec hmmem hall with ⟨m2, hmax, hm2qn⟩
    have hmax2 : maxByQuoteNumber (matchingQuotes (pfxFor y) store) = some m2 := by
      rw [inv_filter hmap]
      exact hmax
    rw [getNext_some hmax2, hm2qn, hmqn, strip_qnum, sfxPad_inc vm (by omega)]
    rfl

/-- A `createQuote` call whose persistence read fails surfaces the read
failure and leaves the store untouched. -/
theorem stepCreate_readFails {c : CreateCall} (store : List Quote)
    (hrf : c.readFails = true) :
    stepCreate c store = (.error .readFailure, store) := by
  simp [stepCreate, createQuote, getNextQuoteNumberE, hrf]

/-- A successful `createQuote` call on a store holding exactly the
numbers `1..n` (`n ≤ 999`) appends the number with suffix `n + 1`. -/
theorem stepCreate_ok (y n : Nat) (c : CreateCall) (store : List Quote)
    (hmap : store.map (fun q => q.quoteNumber) = (List.range' 1 n).map (qnum y))
    (hn : n ≤ 999) (hy : c.year = y) (hrf : c.readFails = false) :
    stepCreate c store =
      (.ok (buildQuote c.newId c.now (qnum y (n + 1)) c.insq),
        store ++ [buildQuote c.newId c.now (qnum y (n + 1)) c.insq]) ∧
    (store ++ [buildQuote c.newId c.now (qnum y (n + 1)) c.insq]).map
        (fun q => q.quoteNumber) = (List.range' 1 (n + 1)).map (qnum y) := by
  have hget : getNextQuoteNumber y store = qnum y (n + 1) := by
    rw [getNext_of_inv y n store hmap (by omega), Nat.min_eq_left hn]
  have hfresh : hasQuoteNumber store (qnum y (n + 1)) = false := by
    rw [hasQuoteNumber]
    apply List.any_eq_false.mpr
    intro q hq
    rcases inv_mem hmap q hq with ⟨v, hv1, hv2, he⟩
    simp only [he, beq_iff_eq]
    exact qnum_ne y (by omega) (by omega) (by omega)
  constructor
  · simp [stepCreate, createQuote, getNextQuoteNumberE, hrf, hy, hget,
      insertQuote, hfresh, buildQuote]
  · rw [List.map_append, hmap, List.range'_1_concat]
    simp [buildQuote, Nat.add_comm 1 n]

/-- Once the store holds the numbers `1..1000`, every further
`createQuote` call of the same year allocates the already-present
number with suffix `1000` and fails on the unique constraint. -/
theorem stepCreate_full (y : Nat) (c : CreateCall) (store : List Quote)
    (hmap : store.map (fun q => q.quoteNumber) =
      (List.range' 1 1000).map (qnum y))
    (hy : c.year = y) (hrf : c.readFails = false) :
    stepCreate c store = (.error .duplicateQuoteNumber, store) := by
  have hget : getNextQuoteNumber y store = qnum y 1000 := by
    rw [getNext_of_inv y 1000 store hmap (by omega)]
    norm_num
  have hdup : hasQuoteNumber store (qnum y 1000) = true := by
    have hmem : qnum y 1000 ∈ store.map (fun q => q.quoteNumber) := by
      rw [hmap]
      exact List.mem_map_of_mem _ (List.mem_range'_1.mpr ⟨by omega, by omega⟩)
    rcases List.mem_map.mp hmem with ⟨m, hmmem, hmqn⟩
    rw [hasQuoteNumber]
    exact List.any_eq_true.mpr ⟨m, hmmem, by simp [hmqn]⟩
  simp [stepCreate, createQuote, getNextQuoteNumberE, hrf, hy, hget,
    insertQuote, hdup, buildQuote]

/-- The run invariant: starting from a store holding exactly the
numbers `1..n` of year `y`, a sequence of same-year calls creates the
numbers `n+1, n+2, ...` in order, never going past suffix `1000`. -/
theorem runCreates_inv (y : Nat) :
    ∀ (calls : List CreateCall) (n : Nat) (store : List Quote),
      (∀ c ∈ calls, c.year = y) →
      store.map (fun q => q.quoteNumber) = (List.range' 1 n).map (qnum y) →
      n ≤ 1000 →
      ∃ k, n + k ≤ 1000 ∧
        (createdTrace calls store).map (fun q => q.quoteNumber) =
          (List.range' (n + 1) k).map (qnum y) ∧
        (runCreates calls store).map (fun q => q.quoteNumber) =
          (List.range' 1 (n + k)).map (qnum y) := by
  intro calls
  induction calls with
  | nil =>
    intro n store hy hmap hn
    exact ⟨0, by omega, by simp [createdTrace], by simpa [runCreates] using hmap⟩
  | cons c rest ih =>
    intro n store hy hmap hn
    have hcy : c.year = y := hy c (List.mem_cons_self c rest)
    have hyr : ∀ c2 ∈ rest, c2.year = y :=
      fun c2 hc2 => hy c2 (List.mem_cons_of_mem c hc2)
    by_cases hrf : c.readFails = true
    · have hstep := stepCreate_readFails store hrf
      rcases ih n store hyr hmap hn with ⟨k, hk, htr, hrun⟩
      refine ⟨k, hk, ?_, ?_⟩
      · rw [createdTrace, hstep]
        exact htr
      · rw [runCreates]
        simp only [List.foldl_cons, hstep]
        exact hrun
    · have hrf2 : c.readFails = false := Bool.not_eq_true c.readFails ▸ hrf
      rcases Nat.lt_or_ge n 1000 with hlt | hge
      · rcases stepCreate_ok y n c store hmap (by omega) hcy hrf2 with ⟨hstep, hmap2⟩
        rcases ih (n + 1) (store ++ [buildQuote c.newId c.now (qnum y (n + 1)) c.insq])
          hyr hmap2 (by omega) with ⟨k, hk, htr, hrun⟩
        refine ⟨k + 1, by omega, ?_, ?_⟩
        · rw [createdTrace, hstep]
          simp only [List.map_cons, htr]
          rw [List.range'_succ (n + 1) k 1]
          simp [buildQuote]
        · rw [runCreates]
          simp only [List.foldl_cons, hstep]
          rw [show n + (k + 1) = n + 1 + k by omega]
          exact hrun
      · have hn1000 : n = 1000 := by omega
        subst hn1000
        have hstep := stepCreate_full y c store hmap hcy hrf2
        rcases ih 1000 store hyr hmap (by omega) with ⟨k, hk, htr, hrun⟩
        have hk0 : k = 0 := by omega
        subst hk0
        refine ⟨0, by omega, ?_, ?_⟩
        · rw [createdTrace, hstep]
          exact htr
        · rw [runCreates]
          simp only [List.foldl_cons, hstep]
          exact hrun

/-- One `createQuote` call preserves pairwise-distinct quote numbers:
on failure the store is untouched, on success the inserted number passed
the uniqueness check. -/
theorem stepCreate_distinct (c : CreateCall) (store : List Quote)
    (h : QuoteNumbersDistinct store) : QuoteNumbersDistinct (stepCreate c store).2 := by
  by_cases hrf : c.readFails = true
  · rw [stepCreate_readFails store hrf]
    exact h
  · have hrf2 : c.readFails = false := Bool.not_eq_true c.readFails ▸ hrf
    by_cases hd : hasQuoteNumber store (getNextQuoteNumber c.year store) = true
    · simp [stepCreate, createQuote, getNextQuoteNumberE, hrf2, insertQuote,
        buildQuote, hd]
      exact h
    · have hd2 : hasQuoteNumber store (getNextQuoteNumber c.year store) = false :=
        Bool.not_eq_true _ ▸ hd
      have hfresh : ∀ a ∈ store,
          a.quoteNumber ≠ getNextQuoteNumber c.year store := by
        intro a ha
        have := List.any_eq_false.mp hd2 a ha
        simp only [Bool.not_eq_true] at this
        exact ne_of_beq_false this
      simp only [stepCreate, createQuote, getNextQuoteNumberE, hrf2,
        if_false, insertQuote, buildQuote, hd2, Bool.false_eq_true]
      rw [QuoteNumbersDistinct]
      apply List.pairwise_append.mpr
      refine ⟨h, List.pairwise_singleton _ _, ?_⟩
      intro a ha b hb
      rcases List.mem_singleton.mp hb with rfl
      exact hfresh a ha

/-- Running any call sequence preserves pairwise-distinct quote numbers. -/
theorem runCreates_distinct_aux :
    ∀ (calls : List CreateCall) (store : List Quote),
      QuoteNumbersDistinct store → QuoteNumbersDistinct (runCreates calls store) := by
  intro calls
  induction calls with
  | nil => intro store h; simpa [runCreates] using h
  | cons c rest ih =>
    intro store h
    rw [runCreates]
    simp only [List.foldl_cons]
    exact ih _ (stepCreate_distinct c store h)

/-- A concrete quote row used in concrete store states. -/
def mkRow (rid qn : String) : Quote :=
  { id := rid, clientId := "client", quoteNumber := qn, title := "t",
    description := none, items := "[]", subtotal := "0", tax := "0",
    total := "0", status := "draft", validUntil := none,
    createdBy := "user", createdAt := 0, updatedAt := 0 }

/-- A store state in which the allocator re-issues an existing number:
the lexicographically greatest number with the 2025 prefix is
`Q2025-999`, yet `Q2025-1000` is also present. -/
def collisionStore : List Quote :=
  [mkRow "a" "Q2025-999", mkRow "b" "Q2025-1000"]

/-- A store whose only quote carries a three-digit suffix. -/
def freshStore : List Quote := [mkRow "a" "Q2025-041"]

/-- A store whose only quote carries the QT-variant number with suffix
`999`. -/
def qt999Store : List Quote := [mkRow "a" "QT2025999"]

/-- A store whose only quote carries the QT-variant number with the
four-digit suffix `1000`. -/
def qtStore : List Quote := [mkRow "a" "QT20251000"]

/-- A store whose lexicographically greatest matching number has a
non-numeric suffix. -/
def malformedStore : List Quote := [mkRow "a" "Q2025-ABC"]

/-- A store holding only quotes of the prior year. -/
def oldYearStore : List Quote := [mkRow "a" "Q2024-017", mkRow "b" "Q2024-001"]

/-- A sample insert payload. -/
def sampleInsert : InsertQuote :=
  { clientId := "client", title := "t", description := none, items := "[]",
    subtotal := "0", tax := "0", total := "0", status := "draft",
    validUntil := none, createdBy := "user" }

/-- C1 (counterexample): `getNextQuoteNumber` can return a string that
is already present.  On the store holding `Q2025-999` and `Q2025-1000`
(reachable with the repository's own `createQuote`/`deleteQuote`), the
lexicographically greatest matching number is `Q2025-999`, so the
allocator computes `Q2025-1000`, which exists. -/
theorem getNextQuoteNumber_returns_existing :
    getNextQuoteNumber 2025 collisionStore = "Q2025-1000" ∧
    hasQuoteNumber collisionStore (getNextQuoteNumber 2025 collisionStore) = true := by
  constructor
  · decide
  · decide

/-- C1 (amended): when every existing number under the year's prefix is
the prefix followed by a zero-padded suffix of value at most `999`
(i.e. the three-digit format the allocator itself produces before the
pad floor grows), `getNextQuoteNumber` returns a string absent from the
store whose numeric suffix strictly exceeds that of the
lexicographically greatest matching number. -/
theorem getNextQuoteNumber_fresh_of_padded (y : Nat) (store : List Quote)
    (h : ∀ q ∈ store, likeStartsWith (pfxFor y) q.quoteNumber = true →
      ∃ v, v ≤ 999 ∧ q.quoteNumber = qnum y v) :
    (∀ q ∈ store, q.quoteNumber ≠ getNextQuoteNumber y store) ∧
    (∀ m, maxByQuoteNumber (matchingQuotes (pfxFor y) store) = some m →
      ∃ a b : Int, parseIntJS (jsReplaceFirst m.quoteNumber (pfxFor y)) = some a ∧
        parseIntJS (jsReplaceFirst (getNextQuoteNumber y store) (pfxFor y)) = some b ∧
        a < b) := by
  cases hM : maxByQuoteNumber (matchingQuotes (pfxFor y) store) with
  | none =>
    have hfil : matchingQuotes (pfxFor y) store = [] :=
      maxByQuoteNumber_eq_none.mp hM
    have hres : getNextQuoteNumber y store = pfxFor y ++ "001" := getNext_none hM
    constructor
    · intro q hq he
      have hmatch : likeStartsWith (pfxFor y) q.quoteNumber = true := by
        rw [he, hres]
        exact likeStartsWith_append _ _
      have hmem : q ∈ matchingQuotes (pfxFor y) store :=
        List.mem_filter.mpr ⟨hq, hmatch⟩
      rw [hfil] at hmem
      cases hmem
    · intro m hm
      simp at hm
  | some m =>
    have hmmem : m ∈ matchingQuotes (pfxFor y) store := maxByQuoteNumber_mem hM
    have hmstore : m ∈ store := (List.mem_filter.mp hmmem).1
    have hmmatch : likeStartsWith (pfxFor y) m.quoteNumber = true :=
      (List.mem_filter.mp hmmem).2
    rcases h m hmstore hmmatch with ⟨vm, hvm, hmqn⟩
    have hres : getNextQuoteNumber y store = qnum y (vm + 1) := by
      rw [getNext_some hM, hmqn, strip_qnum, sfxPad_inc vm (by omega)]
      rfl
    have hmax := maxByQuoteNumber_is_max hM
    constructor
    · intro q hq he
      by_cases hqm : likeStartsWith (pfxFor y) q.quoteNumber = true
      · rcases h q hq hqm with ⟨v, hv, hqn⟩
        have hqfil : q ∈ matchingQuotes (pfxFor y) store :=
          List.mem_filter.mpr ⟨hq, hqm⟩
        have hle := hmax q hqfil
        have hvvm : v ≤ vm := by
          by_contra hgt
          push_neg at hgt
          have hlt : strLtB m.quoteNumber q.quoteNumber = true := by
            rw [hmqn, hqn]
            exact qnum_lt y hgt hv
          rw [hlt] at hle
          cases hle
        rw [hqn, hres] at he
        exact qnum_ne y (by omega) (by omega) (by omega) he
      · exact hqm (by rw [he, hres, qnum]; exact likeStartsWith_append _ _)
    · intro m2 hm2
      injection hm2 with hm2e
      subst hm2e
      refine ⟨(vm : Int), ((vm + 1 : Nat) : Int), ?_, ?_, by exact_mod_cast Nat.lt_succ_self vm⟩
      · rw [hmqn, strip_qnum]
        exact sfxPad_parse vm (by omega)
      · rw [hres, strip_qnum]
        exact sfxPad_parse (vm + 1) (by omega)

/-- Witness for the amended C1 at a concrete store. -/
theorem getNextQuoteNumber_fresh_of_padded_witness :
    (∀ q ∈ freshStore, q.quoteNumber ≠ getNextQuoteNumber 2025 freshStore) ∧
    (∀ m, maxByQuoteNumber (matchingQuotes (pfxFor 2025) freshStore) = some m →
      ∃ a b : Int,
        parseIntJS (jsReplaceFirst m.quoteNumber (pfxFor 2025)) = some a ∧
        parseIntJS (jsReplaceFirst (getNextQuoteNumber 2025 freshStore)
          (pfxFor 2025)) = some b ∧ a < b) :=
  getNextQuoteNumber_fresh_of_padded 2025 freshStore (by
    intro q hq hmatch
    rcases List.mem_singleton.mp hq with rfl
    exact ⟨41, by omega, by decide⟩)

/-- C2: in every state reachable from the empty store by a
single-threaded sequence of `createQuote` operations, no two quotes
share a `quoteNumber`.  Failed calls leave the store untouched and a
successful insert passes the uniqueness check, so the invariant is
maintained. -/
theorem createQuote_unique_quoteNumbers (calls : List CreateCall) :
    QuoteNumbersDistinct (runCreates calls []) :=
  runCreates_distinct_aux calls [] List.Pairwise.nil

/-- C3 (counterexample): the QT-variant allocator does not support
suffixes beyond three digits.  With `QT20251000` as the only (hence
highest) existing number, `slice(-3)` reads `"000"`, so the next
allocation is `QT2025001`, not `QT20251001`. -/
theorem getNextQuoteNumberQT_truncates :
    maxByQuoteNumber (matchingQuotes (qtPfxFor 2025) qtStore) =
      some (mkRow "a" "QT20251000") ∧
    getNextQuoteNumberQT 2025 qtStore = "QT2025001" ∧
    "QT2025001" ≠ "QT20251001" := by
  refine ⟨by decide, by decide, by decide⟩

/-- C3 (amended): when the lexicographically greatest matching number
has a zero-padded suffix of value `v ≤ 1000`, the dash-variant
allocator yields the suffix for `v + 1` — in particular `999 → 1000`
and the four-digit `1000 → 1001`, with no wrap or truncation.  The
QT variant yields `1000` after `999`, but parses only the last three
characters, so after the four-digit `1000` it wraps to `001`. -/
theorem allocator_pad_growth (y : Nat) (store : List Quote) :
    (∀ v, v ≤ 1000 → ∀ m,
      maxByQuoteNumber (matchingQuotes (pfxFor y) store) = some m →
      m.quoteNumber = qnum y v → getNextQuoteNumber y store = qnum y (v + 1)) ∧
    (∀ m, maxByQuoteNumber (matchingQuotes (qtPfxFor y) store) = some m →
      m.quoteNumber = qtPfxFor y ++ sfxPad 999 →
      getNextQuoteNumberQT y store = qtPfxFor y ++ sfxPad 1000) ∧
    (∀ m, maxByQuoteNumber (matchingQuotes (qtPfxFor y) store) = some m →
      m.quoteNumber = qtPfxFor y ++ sfxPad 1000 →
      getNextQuoteNumberQT y store = qtPfxFor y ++ sfxPad 1) := by
  refine ⟨?_, ?_, ?_⟩
  · intro v hv m hM hm
    rw [getNext_some hM, hm, strip_qnum, sfxPad_inc v (by omega)]
    rfl
  · intro m hM hm
    rw [getNextQT_some hM, hm, jsSliceLast3_append _ _ (by decide),
      sfxPad_inc 999 (by omega)]
  · intro m hM hm
    have hsplit : qtPfxFor y ++ sfxPad 1000 = (qtPfxFor y ++ "1") ++ "000" := by
      rw [String.append_assoc]
      rw [show ("1" : String) ++ "000" = sfxPad 1000 by decide]
    rw [getNextQT_some hM, hm, hsplit, jsSliceLast3_append _ _ (by decide)]
    rw [show ("000" : String) = sfxPad 0 by decide, sfxPad_inc 0 (by omega)]

/-- Witness for the amended C3: the three regimes at concrete stores —
`Q2025-041 → Q2025-042`, `QT2025999 → QT20251000`, and the truncating
`QT20251000 → QT2025001`. -/
theorem allocator_pad_growth_witness :
    getNextQuoteNumber 2025 freshStore = qnum 2025 42 ∧
    getNextQuoteNumberQT 2025 qt999Store = qtPfxFor 2025 ++ sfxPad 1000 ∧
    getNextQuoteNumberQT 2025 qtStore = qtPfxFor 2025 ++ sfxPad 1 :=
  ⟨(allocator_pad_growth 2025 freshStore).1 41 (by omega)
      (mkRow "a" "Q2025-041") (by decide) (by decide),
   (allocator_pad_growth 2025 qt999Store).2.1
      (mkRow "a" "QT2025999") (by decide) (by decide),
   (allocator_pad_growth 2025 qtStore).2.2
      (mkRow "a" "QT20251000") (by decide) (by decide)⟩

/-- C4: starting from the empty store, the quotes successfully created
by a same-year single-threaded sequence of `createQuote` calls carry
numbers `qnum y k` with strictly increasing suffixes `k` (indeed the
consecutive values `1, 2, ...`), and each such suffix is what
`parseInt` reads back from the stored number. -/
theorem createQuote_suffixes_strictly_increase (y : Nat) (calls : List CreateCall)
    (hy : ∀ c ∈ calls, c.year = y) :
    ∃ ks : List Nat, List.Chain' (· < ·) ks ∧
      (createdTrace calls []).map (fun q => q.quoteNumber) = ks.map (qnum y) ∧
      ∀ i ∈ ks, parseIntJS (jsReplaceFirst (qnum y i) (pfxFor y)) = some (i : Int) := by
  rcases runCreates_inv y calls 0 [] hy (by simp) (by omega) with ⟨k, hk, htr, _⟩
  refine ⟨List.range' 1 k, ?_, by simpa using htr, ?_⟩
  · exact (by simpa using List.pairwise_lt_range' 1 k 1 (by omega) :
      (List.range' 1 k).Pairwise (· < ·)).chain'
  · intro i hi
    rcases List.mem_range'_1.mp hi with ⟨h1, h2⟩
    rw [strip_qnum]
    exact sfxPad_parse i (by omega)

/-- Witness for C4: a concrete two-call same-year run. -/
theorem createQuote_suffixes_strictly_increase_witness :
    ∃ ks : List Nat, List.Chain' (· < ·) ks ∧
      (createdTrace [⟨2025, false, "id1", 0, sampleInsert⟩,
          ⟨2025, false, "id2", 1, sampleInsert⟩] []).map (fun q => q.quoteNumber) =
        ks.map (qnum 2025) ∧
      ∀ i ∈ ks, parseIntJS (jsReplaceFirst (qnum 2025 i) (pfxFor 2025)) =
        some (i : Int) :=
  createQuote_suffixes_strictly_increase 2025
    [⟨2025, false, "id1", 0, sampleInsert⟩, ⟨2025, false, "id2", 1, sampleInsert⟩]
    (by decide)

/-- C5: whenever no existing quote number starts with the current
year's prefix — the store may be empty or hold any number of quotes
under other prefixes — `getNextQuoteNumber` returns the prefix followed
by `"001"`. -/
theorem getNextQuoteNumber_first_of_year (y : Nat) (store : List Quote)
    (h : ∀ q ∈ store, likeStartsWith (pfxFor y) q.quoteNumber = false) :
    getNextQuoteNumber y store = pfxFor y ++ "001" := by
  apply getNext_none
  apply maxByQuoteNumber_eq_none.mpr
  rw [matchingQuotes]
  apply List.filter_eq_nil_iff.mpr
  intro q hq
  rw [h q hq]
  exact Bool.false_ne_true

/-- Witness for C5: the year rolls to 2025 over a store holding only
2024 quotes. -/
theorem getNextQuoteNumber_first_of_year_witness :
    getNextQuoteNumber 2025 oldYearStore = pfxFor 2025 ++ "001" :=
  getNextQuoteNumber_first_of_year 2025 oldYearStore (by decide)

/-- C6: if the persistence read inside `getNextQuoteNumber` fails,
`createQuote` surfaces the read failure to its caller, no quote number
is issued, no insert is attempted, and the store is unchanged. -/
theorem createQuote_read_failure_no_insert (y : Nat) (newId : String)
    (now : Nat) (q : InsertQuote) (store : List Quote) :
    createQuote y true newId now q store = (.error .readFailure, store) := by
  simp [createQuote, getNextQuoteNumberE]

/-- C7: `createQuote` attempts the insert exactly once; if the
allocated number already exists, the unique-constraint rejection is
surfaced to the caller as is, with no retry, no re-allocation and no
quote persisted. -/
theorem createQuote_duplicate_no_retry (y : Nat) (newId : String) (now : Nat)
    (q : InsertQuote) (store : List Quote)
    (h : hasQuoteNumber store (getNextQuoteNumber y store) = true) :
    createQuote y false newId now q store =
      (.error .duplicateQuoteNumber, store) := by
  simp [createQuote, getNextQuoteNumberE, insertQuote, buildQuote, h]

/-- Witness for C7: on the store holding `Q2025-999` and `Q2025-1000`
the allocated number collides and the creation fails outright. -/
theorem createQuote_duplicate_no_retry_witness :
    createQuote 2025 false "c" 7 sampleInsert collisionStore =
      (.error .duplicateQuoteNumber, collisionStore) :=
  createQuote_duplicate_no_retry 2025 "c" 7 sampleInsert collisionStore (by decide)

/-- C8: when the lexicographically greatest matching number has a
non-numeric suffix, the allocation is not rejected: `parseInt` yields
NaN, `NaN + 1` is NaN, and the formatted result is the prefix followed
by `"NaN"` — a returned string whose suffix is not a digit string. -/
theorem getNextQuoteNumber_malformed_nan :
    maxByQuoteNumber (matchingQuotes (pfxFor 2025) malformedStore) =
      some (mkRow "a" "Q2025-ABC") ∧
    parseIntJS (jsReplaceFirst "Q2025-ABC" (pfxFor 2025)) = none ∧
    getNextQuoteNumber 2025 malformedStore = pfxFor 2025 ++ "NaN" ∧
    jsReplaceFirst (getNextQuoteNumber 2025 malformedStore) (pfxFor 2025) = "NaN" ∧
    isDigitString "NaN" = false := by
  refine ⟨by decide, by decide, by decide, by decide, by decide⟩

/-- C9: `updateQuote` never changes any stored `quoteNumber` (its patch
type, `Partial<InsertQuote>`, has no such field and the allocator is
never consulted — the store's numbers are unchanged), rows with other
ids are untouched, and on the patched row every field absent from the
patch except `updatedAt` keeps its value. -/
theorem updateQuote_frame (rid : String) (p : QuotePatch) (now : Nat)
    (store : List Quote) :
    ((updateQuote rid p now store).2.map (fun q => q.quoteNumber) =
      store.map (fun q => q.quoteNumber)) ∧
    (∀ q ∈ store, q.id ≠ rid → q ∈ (updateQuote rid p now store).2) ∧
    (∀ q : Quote,
      (applyPatch q p now).quoteNumber = q.quoteNumber ∧
      (applyPatch q p now).id = q.id ∧
      (applyPatch q p now).createdAt = q.createdAt ∧
      (applyPatch q p now).updatedAt = now ∧
      (p.clientId = none → (applyPatch q p now).clientId = q.clientId) ∧
      (p.title = none → (applyPatch q p now).title = q.title) ∧
      (p.description = none → (applyPatch q p now).description = q.description) ∧
      (p.items = none → (applyPatch q p now).items = q.items) ∧
      (p.subtotal = none → (applyPatch q p now).subtotal = q.subtotal) ∧
      (p.tax = none → (applyPatch q p now).tax = q.tax) ∧
      (p.total = none → (applyPatch q p now).total = q.total) ∧
      (p.status = none → (applyPatch q p now).status = q.status) ∧
      (p.validUntil = none → (applyPatch q p now).validUntil = q.validUntil) ∧
      (p.createdBy = none → (applyPatch q p now).createdBy = q.createdBy)) := by
  refine ⟨?_, ?_, ?_⟩
  · show (store.map _).map _ = _
    rw [List.map_map]
    apply List.map_congr_left
    intro q _
    by_cases hid : (q.id == rid) = true
    · show (if (q.id == rid) = true then applyPatch q p now else q).quoteNumber = _
      rw [if_pos hid]
      rfl
    · show (if (q.id == rid) = true then applyPatch q p now else q).quoteNumber = _
      rw [if_neg hid]
  · intro q hq hne
    have hid : (q.id == rid) = false := beq_eq_false_iff_ne.mpr hne
    apply List.mem_map.mpr
    refine ⟨q, hq, ?_⟩
    show (if (q.id == rid) = true then applyPatch q p now else q) = q
    rw [if_neg (by simp [hid])]
  · intro q
    refine ⟨rfl, rfl, rfl, rfl, ?_, ?_, ?_, ?_, ?_, ?_, ?_, ?_, ?_, ?_⟩ <;>
      (intro h; simp [applyPatch, h])

/-- Witness for C9: updating with an empty patch at a concrete store
keeps the number and every field but `updatedAt`. -/
theorem updateQuote_frame_witness :
    ({} : QuotePatch).title = none ∧
    (applyPatch (mkRow "a" "Q2025-001") {} 5).title = (mkRow "a" "Q2025-001").title ∧
    (applyPatch (mkRow "a" "Q2025-001") {} 5).quoteNumber = "Q2025-001" ∧
    (updateQuote "b" {} 5 [mkRow "a" "Q2025-001"]).2.map (fun q => q.quoteNumber) =
      ["Q2025-001"] := by
  have h := updateQuote_frame "b" {} 5 [mkRow "a" "Q2025-001"]
  refine ⟨rfl, ?_, ?_, ?_⟩
  · exact ((h.2.2 (mkRow "a" "Q2025-001")).2.2.2.2.2.1) rfl
  · exact (h.2.2 (mkRow "a" "Q2025-001")).1
  · simpa using h.1

/-- C10: if any of the four persistence queries inside
`getDashboardStats` (MySQL variant) fails, the `catch` swallows the
error and returns all-zero stats — the same value the success path
returns on an empty data set, so the caller cannot tell a persistence
failure from no data. -/
theorem getDashboardStats_swallows_failures (fl : DbFailures) (userId : String)
    (isAdmin : Bool) (now som : Nat) (db : Database)
    (h : (fl.clientsQuery || fl.quotesQuery || fl.meetingsQuery ||
      fl.revenueQuery) = true) :
    getDashboardStats fl userId isAdmin now som db =
      { totalClients := 0, activeQuotes := 0, upcomingMeetings := 0,
        monthlyRevenue := some 0 } ∧
    getDashboardStats ⟨false, false, false, false⟩ userId isAdmin now som
        ⟨[], [], []⟩ =
      { totalClients := 0, activeQuotes := 0, upcomingMeetings := 0,
        monthlyRevenue := some 0 } := by
  have hz : parseDecimalRat "0" = some 0 := by
    have h0 : "0".data = ['0'] := rfl
    simp [parseDecimalRat, h0, takeDigits, digitValue, digitsToNat]
  constructor
  · rcases fl with ⟨bc, bq, bm, br⟩
    simp only at h
    cases bc <;> cases bq <;> cases bm <;> cases br <;>
      first
        | rfl
        | simp at h
  · cases isAdmin <;>
      · show DashboardStats.mk 0 0 0 (parseDecimalRat "0") =
          DashboardStats.mk 0 0 0 (some 0)
        rw [hz]

/-- Witness for C10: a failing clients query at a concrete state. -/
theorem getDashboardStats_swallows_failures_witness :
    getDashboardStats ⟨true, false, false, false⟩ "u" true 0 0 ⟨[], [], []⟩ =
      { totalClients := 0, activeQuotes := 0, upcomingMeetings := 0,
        monthlyRevenue := some 0 } ∧
    getDashboardStats ⟨false, false, false, false⟩ "u" true 0 0 ⟨[], [], []⟩ =
      { totalClients := 0, activeQuotes := 0, upcomingMeetings := 0,
        monthlyRevenue := some 0 } :=
  getDashboardStats_swallows_failures ⟨true, false, false, false⟩ "u" true 0 0
    ⟨[], [], []⟩ rfl
